import Mathlib

/-!
Verification of the monday-client pagination and retry engine.

This file gives a shallow embedding, in Lean 4, of the core of the
monday-client repository:

* `MondayClient.post_request` (src/monday/client.py, the retry/limit
  governor),
* the extraction helpers and the paginated request driver
  (src/monday/services/utils/pagination.py),
* `check_query_result` (src/monday/services/utils/error_handlers.py),
* the page-number based user listing loop (src/monday/services/users.py).

JSON values are modelled by the mutual inductive `Json`; Python `None`
is `Json.null`.  The network is modelled by a script: a list of the
values the transport yields, one per request.  Python exceptions that
escape a modelled function are explicit constructors of the result
types.  All definitions are computable and structurally recursive, so
concrete runs evaluate by `rfl` / `decide`.
-/

mutual
/-- Parsed JSON values as handled by the client (Python dict / list / str /
int / bool / None trees).  Dict insertion order is significant in Python 3.7+
and is preserved by `JsonObj`. -/
inductive Json where
  | null : Json
  | bool : Bool → Json
  | int : Int → Json
  | str : String → Json
  | arr : JsonArr → Json
  | obj : JsonObj → Json
  deriving DecidableEq
/-- A JSON array (Python list). -/
inductive JsonArr where
  | nil : JsonArr
  | cons : Json → JsonArr → JsonArr
  deriving DecidableEq
/-- A JSON object (Python dict) with keys in insertion order. -/
inductive JsonObj where
  | nil : JsonObj
  | cons : String → Json → JsonObj → JsonObj
  deriving DecidableEq
end

/-- Lookup of a key in a dict, Python `d[k]` / `k in d` (keys are unique in a
Python dict, so first match is the match). -/
def jGet : JsonObj → String → Option Json
  | .nil, _ => none
  | .cons k v rest, key => if k = key then some v else jGet rest key

/-- Keys of a dict in insertion order. -/
def jKeys : JsonObj → List String
  | .nil => []
  | .cons k _ rest => k :: jKeys rest

/-- List-of-char prefix test. -/
def isPrefixCL : List Char → List Char → Bool
  | [], _ => true
  | _ :: _, [] => false
  | a :: as, b :: bs => a = b && isPrefixCL as bs

/-- Substring containment on char lists, Python `needle in hay`. -/
def containsSub (needle : List Char) : List Char → Bool
  | [] => isPrefixCL needle []
  | hay@(_ :: rest) => isPrefixCL needle hay || containsSub needle rest

/-- Python `key.lower()` restricted to the ASCII keys the client inspects. -/
def lowerCL (s : List Char) : List Char := s.map Char.toLower

/-- Test from src/monday/client.py line 254 and error_handlers.py line 30:
`any('error' in key.lower() for key in response_data.keys())`. -/
def hasErrorSubstrKey : JsonObj → Bool
  | .nil => false
  | .cons k _ rest => containsSub "error".data (lowerCL k.data) || hasErrorSubstrKey rest

/-- ASCII decimal digit test, the `\d` of the cooldown regex (Python `\d`
also accepts non-ASCII unicode digits; the client only ever receives ASCII
API messages, and the model fixes ASCII). -/
def isDig (c : Char) : Bool := decide (48 ≤ c.toNat) && decide (c.toNat ≤ 57)

/-- Numeric value of a digit character. -/
def digitVal (c : Char) : Nat := c.toNat - 48

/-- Split off the maximal leading run of digits (the greedy `\d+`). -/
def takeDigits : List Char → (List Char × List Char)
  | [] => ([], [])
  | c :: rest =>
    if isDig c then
      let p := takeDigits rest
      (c :: p.1, p.2)
    else ([], c :: rest)

/-- Value of a digit string. -/
def natOfDigits (ds : List Char) : Nat := ds.foldl (fun a c => 10 * a + digitVal c) 0

/-- A decimal numeral matched by the regex group `(\d+(?:\.\d+)?)`. -/
structure DecNumeral where
  intDigits : List Char
  fracDigits : List Char
  deriving DecidableEq

/-- Attempt of the regex `(\d+(?:\.\d+)?) seconds` anchored at the current
position.  The greedy `\d+` takes the maximal digit run: shortening it would
put a digit where `\.` or the space of " seconds" is required, so no
backtracking case is lost. -/
def matchSecondsAt (s : List Char) : Option DecNumeral :=
  let p := takeDigits s
  if p.1 = [] then none
  else
    match p.2 with
    | '.' :: r2 =>
      let q := takeDigits r2
      if q.1 ≠ [] ∧ isPrefixCL " seconds".data q.2 then some ⟨p.1, q.1⟩
      else if isPrefixCL " seconds".data p.2 then some ⟨p.1, []⟩
      else none
    | rest => if isPrefixCL " seconds".data rest then some ⟨p.1, []⟩ else none

/-- Leftmost match of `re.search(r'(\d+(?:\.\d+)?) seconds', message)`
(src/monday/client.py line 256). -/
def searchSeconds : List Char → Option DecNumeral
  | [] => none
  | s@(_ :: rest) =>
    match matchSecondsAt s with
    | some n => some n
    | none => searchSeconds rest

/-- Model of `math.ceil(float(group))` (src/monday/client.py line 258) in
exact decimal arithmetic: the ceiling of the matched decimal numeral. -/
def ceilSeconds (n : DecNumeral) : Nat :=
  if n.fracDigits.all (fun c => decide (digitVal c = 0)) then natOfDigits n.intDigits
  else natOfDigits n.intDigits + 1

/-- Rational value of a fractional digit string read after the decimal dot. -/
def fracRat (ds : List Char) : ℚ := ds.foldr (fun c acc => ((digitVal c : ℚ) + acc) / 10) 0

/-- Rational value of the matched numeral. -/
def numeralRat (n : DecNumeral) : ℚ := (natOfDigits n.intDigits : ℚ) + fracRat n.fracDigits

/-- The client-side rate limit window, `MondayClient._rate_limit_seconds`
(src/monday/client.py line 119). -/
def rateLimitSeconds : Nat := 60

/-- Message of the `ComplexityLimitExceeded` exception raised at
src/monday/client.py line 262. -/
def complexityMsg (resetIn : Nat) : String :=
  "Complexity limit exceeded, retrying after " ++ toString resetIn ++ " seconds..."

/-- Message of the `MutationLimitExceeded` exception raised at
src/monday/client.py line 265. -/
def mutationMsg : String :=
  "Rate limit exceeded, retrying after " ++ toString rateLimitSeconds ++ " seconds..."

/-- Outcome of inspecting one transport response inside the `try` block of
`post_request` (src/monday/client.py lines 252-268). -/
inductive GovernStep where
  | success : GovernStep
  | errorDict : GovernStep
  | retryAfter : Nat → String → GovernStep
  | crash : String → GovernStep
  deriving DecidableEq

/-- Branch of src/monday/client.py lines 263-266: the `status_code` check and
the final `return 'error': response_data`.  `int(...)` on a value that
cannot convert is a Python crash. -/
def classifyStatus (fs : JsonObj) : GovernStep :=
  match jGet fs "status_code" with
  | some (.int n) => if n = 429 then .retryAfter rateLimitSeconds mutationMsg else .errorDict
  | some (.bool b) => if b then .errorDict else .errorDict
  | some _ => .crash "int() applied to a non-integer status_code"
  | none => .errorDict

/-- Payload inspection of src/monday/client.py lines 254-268: the
case-insensitive error-key scan, the `ComplexityException` branch with the
cooldown regex, the 429 branch, the unknown-fault return, and the success
return. -/
def classify : Json → GovernStep
  | .obj fs =>
    if hasErrorSubstrKey fs then
      match jGet fs "error_code" with
      | some (.str code) =>
        if code = "ComplexityException" then
          match jGet fs "error_message" with
          | some (.str msg) =>
            match searchSeconds msg.data with
            | some num => .retryAfter (ceilSeconds num) (complexityMsg (ceilSeconds num))
            | none => .errorDict
          | some _ => .crash "TypeError: re.search on a non-string error_message"
          | none => .crash "KeyError: error_message"
        else classifyStatus fs
      | some _ => classifyStatus fs
      | none => classifyStatus fs
    else .success
  | _ => .crash "AttributeError: keys() on a non-dict response"

/-- One transport round trip: a parsed JSON body, or an `aiohttp.ClientError`
carrying its message. -/
inductive TransportResult where
  | ok : Json → TransportResult
  | netError : String → TransportResult
  deriving DecidableEq

/-- Final outcome of `post_request`: a returned dict, a propagated Python
error, or a transport script too short for the run (the call would still be
waiting on the network). -/
inductive PostOutcome where
  | ret : Json → PostOutcome
  | crash : String → PostOutcome
  | hang : PostOutcome
  deriving DecidableEq

/-- A finished run of `post_request`: outcome, the `asyncio.sleep` amounts in
order, and the number of transport requests made. -/
structure PostRun where
  out : PostOutcome
  sleeps : List Nat
  requests : Nat
  deriving DecidableEq

/-- Dict `'error': j`, the fault envelopes returned by `post_request`. -/
def errObj (j : Json) : Json := .obj (.cons "error" j .nil)

/-- Dict `'error': s` with a string payload. -/
def errStr (s : String) : Json := errObj (.str s)

/-- The retry loop of `post_request` (src/monday/client.py lines 250-285),
run against a transport script.  The second argument is the number of
attempts still available (`max_retries - attempt`); `attempt < max_retries - 1`
is `remaining > 1`.  With zero attempts the loop body never runs and the
fall-through line 285 reads the unbound `response_data`, a `NameError`. -/
def postRequestRun : List TransportResult → Nat → PostRun
  | _, 0 => ⟨.crash "NameError: response_data unbound at line 285", [], 0⟩
  | [], _ + 1 => ⟨.hang, [], 0⟩
  | .ok j :: rest, r + 1 =>
    match classify j with
    | .success => ⟨.ret j, [], 1⟩
    | .errorDict => ⟨.ret (errObj j), [], 1⟩
    | .crash why => ⟨.crash why, [], 1⟩
    | .retryAfter amt msg =>
      if r = 0 then ⟨.ret (errStr ("Max retries reached. Last error: " ++ msg)), [], 1⟩
      else
        let o := postRequestRun rest r
        ⟨o.out, amt :: o.sleeps, o.requests + 1⟩
  | .netError m :: rest, r + 1 =>
    if r = 0 then ⟨.ret (errStr ("Max retries reached. Last error: " ++ m)), [], 1⟩
    else
      let o := postRequestRun rest r
      ⟨o.out, rateLimitSeconds :: o.sleeps, o.requests + 1⟩

/-- A payload that `post_request` treats as a complexity fault with parsed
cooldown `c`: it carries the `ComplexityException` provider code and a
message whose embedded `<number> seconds` pattern rounds up to `c`. -/
def ComplexityFault (p : Json) (c : Nat) : Prop :=
  ∃ fs msg num, p = .obj fs
    ∧ jGet fs "error_code" = some (.str "ComplexityException")
    ∧ jGet fs "error_message" = some (.str msg)
    ∧ searchSeconds msg.data = some num
    ∧ c = ceilSeconds num

/-- A payload `post_request` treats as a success envelope: a dict none of
whose keys contains the substring `error`. -/
def SuccessShape (p : Json) : Prop :=
  ∃ fs, p = .obj fs ∧ hasErrorSubstrKey fs = false

example : postRequestRun [.ok (errObj (.str "x"))] 4 = ⟨.ret (errObj (errObj (.str "x"))), [], 1⟩ := rfl

example : searchSeconds "reset in 12.4 seconds".data = some ⟨['1', '2'], ['4']⟩ := rfl

example : searchSeconds "reset in 12.4x seconds".data = none := rfl

example : ceilSeconds ⟨['1', '2'], ['4']⟩ = 13 := rfl

example : classify (.obj (.cons "error" (.str "e") (.cons "error_code" (.str "ComplexityException") (.cons "error_message" (.str "reset in 12.4 seconds") .nil)))) = .retryAfter 13 (complexityMsg 13) := rfl

example : complexityMsg 13 = "Complexity limit exceeded, retrying after 13 seconds..." := by decide

theorem JsonObj.tailInduction {P : JsonObj → Prop} (h0 : P .nil)
    (h1 : ∀ k v rest, P rest → P (.cons k v rest)) : ∀ fs, P fs
  | .nil => h0
  | .cons k v rest => h1 k v rest (JsonObj.tailInduction h0 h1 rest)

theorem hasError_of_key (fs : JsonObj) (key : String) (v : Json)
    (hkey : containsSub "error".data (lowerCL key.data) = true)
    (h : jGet fs key = some v) : hasErrorSubstrKey fs = true := by
  induction fs using JsonObj.tailInduction with
  | h0 => simp [jGet] at h
  | h1 k w rest ih =>
    rw [jGet] at h
    by_cases hk : k = key
    · subst hk
      simp [hasErrorSubstrKey, hkey]
    · rw [if_neg hk] at h
      simp [hasErrorSubstrKey, ih h]

theorem classify_complexityFault (p : Json) (c : Nat) (h : ComplexityFault p c) :
    classify p = .retryAfter c (complexityMsg c) := by
  obtain ⟨fs, msg, num, rfl, h1, h2, h3, rfl⟩ := h
  have herr := hasError_of_key fs "error_code" _ (by decide) h1
  simp [classify, herr, h1, h2, h3]

theorem classify_success (p : Json) (h : SuccessShape p) : classify p = .success := by
  obtain ⟨fs, rfl, hfs⟩ := h
  simp [classify, hfs]

theorem takeDigits_fst (s : List Char) : ∀ c ∈ (takeDigits s).1, isDig c = true := by
  induction s with
  | nil => simp [takeDigits]
  | cons c rest ih =>
    rw [takeDigits]
    by_cases h : isDig c
    · simp only [h, if_true]
      intro x hx
      rcases List.mem_cons.mp hx with rfl | hx
      · exact h
      · exact ih x hx
    · simp [h]

theorem matchSecondsAt_digits (s : List Char) (n : DecNumeral) (h : matchSecondsAt s = some n) :
    (∀ c ∈ n.intDigits, isDig c = true) ∧ (∀ c ∈ n.fracDigits, isDig c = true) := by
  simp only [matchSecondsAt] at h
  split at h
  · simp at h
  · split at h
    · rename_i r2 heq
      split at h
      · injection h with h
        subst h
        exact ⟨takeDigits_fst s, takeDigits_fst r2⟩
      · split at h
        · injection h with h
          subst h
          exact ⟨takeDigits_fst s, by simp⟩
        · simp at h
    · split at h
      · injection h with h
        subst h
        exact ⟨takeDigits_fst s, by simp⟩
      · simp at h

theorem searchSeconds_digits (s : List Char) (n : DecNumeral) (h : searchSeconds s = some n) :
    (∀ c ∈ n.intDigits, isDig c = true) ∧ (∀ c ∈ n.fracDigits, isDig c = true) := by
  induction s with
  | nil => simp [searchSeconds] at h
  | cons c rest ih =>
    rw [searchSeconds] at h
    rcases hm : matchSecondsAt (c :: rest) with _ | m
    · rw [hm] at h
      exact ih h
    · rw [hm] at h
      injection h with h
      subst h
      exact matchSecondsAt_digits _ _ hm

theorem fracRat_nil : fracRat [] = 0 := rfl

theorem fracRat_cons (c : Char) (rest : List Char) :
    fracRat (c :: rest) = ((digitVal c : ℚ) + fracRat rest) / 10 := rfl

theorem digitVal_le_nine (c : Char) (h : isDig c = true) : digitVal c ≤ 9 := by
  simp [isDig] at h
  simp [digitVal]
  omega

theorem fracRat_nonneg (ds : List Char) : 0 ≤ fracRat ds := by
  induction ds with
  | nil => simp [fracRat_nil]
  | cons c rest ih =>
    rw [fracRat_cons]
    positivity

theorem fracRat_lt_one (ds : List Char) (h : ∀ c ∈ ds, isDig c = true) : fracRat ds < 1 := by
  induction ds with
  | nil => simp [fracRat_nil]
  | cons c rest ih =>
    rw [fracRat_cons]
    have h1 : digitVal c ≤ 9 := digitVal_le_nine c (h c (by simp))
    have h2 : fracRat rest < 1 := ih (fun x hx => h x (by simp [hx]))
    rw [div_lt_one (by norm_num)]
    have : (digitVal c : ℚ) ≤ 9 := by exact_mod_cast h1
    linarith

theorem fracRat_eq_zero (ds : List Char) (h : ∀ c ∈ ds, digitVal c = 0) : fracRat ds = 0 := by
  induction ds with
  | nil => simp [fracRat_nil]
  | cons c rest ih =>
    rw [fracRat_cons, h c (by simp), ih (fun x hx => h x (by simp [hx]))]
    norm_num

theorem fracRat_pos (ds : List Char)
    (h : ¬ (ds.all fun c => decide (digitVal c = 0)) = true) : 0 < fracRat ds := by
  induction ds with
  | nil => simp at h
  | cons c rest ih =>
    rw [fracRat_cons]
    by_cases hz : digitVal c = 0
    · have : ¬ (rest.all fun c => decide (digitVal c = 0)) = true := by
        simp [List.all_cons, hz] at h ⊢
        exact h
      have := ih this
      positivity
    · have h1 : (1 : ℚ) ≤ (digitVal c : ℚ) := by
        have : 1 ≤ digitVal c := by omega
        exact_mod_cast this
      have h2 := fracRat_nonneg rest
      positivity

theorem ceilSeconds_eq_ceil (n : DecNumeral) (hd : ∀ c ∈ n.fracDigits, isDig c = true) :
    (ceilSeconds n : ℤ) = ⌈numeralRat n⌉ := by
  rw [ceilSeconds, numeralRat]
  by_cases hz : (n.fracDigits.all fun c => decide (digitVal c = 0)) = true
  · rw [if_pos hz]
    have h0 : fracRat n.fracDigits = 0 := by
      apply fracRat_eq_zero
      intro c hc
      have := List.all_eq_true.mp hz c hc
      simpa using this
    rw [h0, add_zero]
    simp
  · rw [if_neg hz]
    have hpos : 0 < fracRat n.fracDigits := fracRat_pos _ hz
    have hlt : fracRat n.fracDigits < 1 := fracRat_lt_one _ hd
    rw [add_comm ((natOfDigits n.intDigits : ℚ)) (fracRat n.fracDigits), Int.ceil_add_nat]
    have : ⌈fracRat n.fracDigits⌉ = 1 := by
      rw [Int.ceil_eq_iff]
      constructor
      · simpa using hpos
      · exact_mod_cast hlt.le
    rw [this]
    push_cast
    ring

/-- C2: for every fault payload carrying the `ComplexityException` provider
code together with a message string: if the message contains the pattern
`<decimal number> seconds`, the computed cooldown is exactly the ceiling of
that decimal number, the payload is classified as a retryable complexity
fault, and a governed request with attempts remaining sleeps exactly that
cooldown once and then returns the following success envelope; if the
pattern is absent, the governed request returns the non-retryable terminal
dict carrying the raw payload after a single request, with no sleep and no
crash. -/
theorem c2_cooldown_parsing (fs : JsonObj) (msg : String)
    (hcode : jGet fs "error_code" = some (.str "ComplexityException"))
    (hmsg : jGet fs "error_message" = some (.str msg)) :
    (∀ num, searchSeconds msg.data = some num →
      ((ceilSeconds num : ℤ) = ⌈numeralRat num⌉
        ∧ classify (.obj fs) = .retryAfter (ceilSeconds num) (complexityMsg (ceilSeconds num))
        ∧ ∀ s M, SuccessShape s → 2 ≤ M →
            postRequestRun [.ok (.obj fs), .ok s] M = ⟨.ret s, [ceilSeconds num], 2⟩))
    ∧ (searchSeconds msg.data = none → ∀ M, 1 ≤ M →
        postRequestRun [.ok (.obj fs)] M = ⟨.ret (errObj (.obj fs)), [], 1⟩) := by
  have herr := hasError_of_key fs "error_code" _ (by decide) hcode
  constructor
  · intro num hsearch
    have hcl : classify (.obj fs) = .retryAfter (ceilSeconds num) (complexityMsg (ceilSeconds num)) := by
      simp [classify, herr, hcode, hmsg, hsearch]
    refine ⟨ceilSeconds_eq_ceil num (searchSeconds_digits msg.data num hsearch).2, hcl, ?_⟩
    intro s M hs hM
    obtain ⟨k, rfl⟩ : ∃ k, M = k + 2 := ⟨M - 2, by omega⟩
    simp [postRequestRun, hcl, classify_success s hs]
  · intro hsearch M hM
    obtain ⟨k, rfl⟩ : ∃ k, M = k + 1 := ⟨M - 1, by omega⟩
    simp [postRequestRun, classify, herr, hcode, hmsg, hsearch]

theorem c2_cooldown_parsing_witness :
    postRequestRun
        [.ok (.obj (.cons "error_code" (.str "ComplexityException")
            (.cons "error_message" (.str "Complexity budget exhausted, reset in 12.4 seconds please wait") .nil))),
         .ok (.obj (.cons "data" (.str "payload") .nil))] 4
      = ⟨.ret (.obj (.cons "data" (.str "payload") .nil)), [13], 2⟩ :=
  ((c2_cooldown_parsing
      (.cons "error_code" (.str "ComplexityException")
        (.cons "error_message" (.str "Complexity budget exhausted, reset in 12.4 seconds please wait") .nil))
      "Complexity budget exhausted, reset in 12.4 seconds please wait" rfl rfl).1
        ⟨['1', '2'], ['4']⟩ rfl).2.2
    (.obj (.cons "data" (.str "payload") .nil)) 4 ⟨_, rfl, rfl⟩ (by norm_num)

/-- C1: retry bound of the governed request.  For a transport that yields N
consecutive complexity faults (payloads with parsed cooldowns `cs`) followed
by one success envelope, a run with `max_retries = M ≥ 1` either (N < M)
returns the success envelope after N+1 requests having slept exactly the N
server-specified cooldowns in order, or (N ≥ M) returns the terminal error
dict embedding the message of the M-th fault's limit exception after exactly
M requests and M−1 sleeps. -/
theorem c1_retry_bound (ps : List Json) (cs : List Nat) (s : Json) (M : Nat)
    (hf : List.Forall₂ ComplexityFault ps cs) (hs : SuccessShape s) (hM : 1 ≤ M) :
    (ps.length < M →
      postRequestRun (ps.map TransportResult.ok ++ [TransportResult.ok s]) M
        = ⟨.ret s, cs, ps.length + 1⟩)
    ∧ (M ≤ ps.length →
      postRequestRun (ps.map TransportResult.ok ++ [TransportResult.ok s]) M
        = ⟨.ret (errStr ("Max retries reached. Last error: " ++ complexityMsg (cs.getD (M - 1) 0))),
            cs.take (M - 1), M⟩) := by
  induction hf generalizing M hM with
  | nil =>
    refine ⟨fun _ => ?_, fun h => absurd h (by simp; omega)⟩
    obtain ⟨r, rfl⟩ : ∃ r, M = r + 1 := ⟨M - 1, by omega⟩
    simp [postRequestRun, classify_success s hs]
  | cons hpc hrest ih =>
    rename_i p c ps' cs'
    obtain ⟨r, rfl⟩ : ∃ r, M = r + 1 := ⟨M - 1, by omega⟩
    have hc := classify_complexityFault _ _ hpc
    by_cases hr : r = 0
    · subst hr
      refine ⟨fun h => absurd h (by simp), fun _ => ?_⟩
      simp [postRequestRun, hc]
    · have h1r : 1 ≤ r := by omega
      obtain ⟨k, rfl⟩ : ∃ k, r = k + 1 := ⟨r - 1, by omega⟩
      refine ⟨fun hlen => ?_, fun hlen => ?_⟩
      · have hl : ps'.length < k + 1 := by simp at hlen; omega
        have h1 := (ih (k + 1) h1r).1 hl
        simp [postRequestRun, hc, h1]
      · have hl : k + 1 ≤ ps'.length := by simp at hlen; omega
        have h2 := (ih (k + 1) h1r).2 hl
        simp only [postRequestRun, hc, h1r, List.map_cons, List.cons_append]
        rw [if_neg hr]
        simp [h2, List.getD_cons_succ, List.take_succ_cons]

theorem c1_retry_bound_witness :
    postRequestRun
        [.ok (.obj (.cons "error_code" (.str "ComplexityException")
            (.cons "error_message" (.str "reset in 12.4 seconds") .nil))),
         .ok (.obj (.cons "error_code" (.str "ComplexityException")
            (.cons "error_message" (.str "reset in 1 seconds") .nil))),
         .ok (.obj (.cons "data" (.int 7) .nil))] 2
      = ⟨.ret (errStr ("Max retries reached. Last error: " ++ complexityMsg 1)), [13], 2⟩ :=
  (c1_retry_bound
    [.obj (.cons "error_code" (.str "ComplexityException")
        (.cons "error_message" (.str "reset in 12.4 seconds") .nil)),
     .obj (.cons "error_code" (.str "ComplexityException")
        (.cons "error_message" (.str "reset in 1 seconds") .nil))]
    [13, 1] (.obj (.cons "data" (.int 7) .nil)) 2
    (List.Forall₂.cons ⟨_, _, ⟨['1', '2'], ['4']⟩, rfl, rfl, rfl, rfl, rfl⟩
      (List.Forall₂.cons ⟨_, _, ⟨['1'], []⟩, rfl, rfl, rfl, rfl, rfl⟩ List.Forall₂.nil))
    ⟨_, rfl, rfl⟩ (by norm_num)).2 (by norm_num)

/-- A transport outcome over which `post_request` is crash-free: either a
network-level client error, or a dict payload in which a present
`ComplexityException` code comes with a string message and a present
`status_code` is an integer or a boolean.  These are the fault shapes the
client is written against (src/monday/client.py lines 254-266). -/
def SafeEntry (t : TransportResult) : Prop :=
  (∃ m, t = .netError m) ∨
  ∃ fs, t = .ok (.obj fs)
    ∧ (jGet fs "error_code" = some (.str "ComplexityException") →
        ∃ m, jGet fs "error_message" = some (.str m))
    ∧ (∀ v, jGet fs "status_code" = some v → (∃ n, v = .int n) ∨ ∃ b, v = .bool b)

/-- C9: over the modelled fault shapes the governed request never lets a
limit exception or any other Python exception escape: with `max_retries ≥ 1`
and a long-enough transport script of safe entries, `post_request` always
returns a dict, and that dict is either the success envelope (no error-like
key) or carries the key `error`. -/
theorem c9_returns_error_dict (script : List TransportResult) (M : Nat) (hM : 1 ≤ M)
    (hlen : M ≤ script.length) (hsafe : ∀ t ∈ script, SafeEntry t) :
    ∃ fs, (postRequestRun script M).out = .ret (.obj fs)
      ∧ (hasErrorSubstrKey fs = false ∨ (jGet fs "error").isSome = true) := by
  induction script generalizing M hM with
  | nil => simp at hlen; omega
  | cons t rest ih =>
    obtain ⟨r, rfl⟩ : ∃ r, M = r + 1 := ⟨M - 1, by omega⟩
    have hsafeRest : ∀ x ∈ rest, SafeEntry x := fun x hx => hsafe x (by simp [hx])
    have hRetryGoal : ∀ (j : Json) (amt : Nat) (m : String), classify j = .retryAfter amt m →
        ∃ fs, (postRequestRun (.ok j :: rest) (r + 1)).out = .ret (.obj fs)
          ∧ (hasErrorSubstrKey fs = false ∨ (jGet fs "error").isSome = true) := by
      intro j amt m hcl
      by_cases hr : r = 0
      · subst hr
        refine ⟨.cons "error" (.str ("Max retries reached. Last error: " ++ m)) .nil, ?_, ?_⟩
        · simp [postRequestRun, hcl, errStr, errObj]
        · right
          simp [jGet]
      · have h1r : 1 ≤ r := by omega
        have hlr : r ≤ rest.length := by simp at hlen; omega
        obtain ⟨fs, hout, hfs⟩ := ih r h1r hlr hsafeRest
        refine ⟨fs, ?_, hfs⟩
        simp only [postRequestRun, hcl]
        rw [if_neg hr]
        exact hout
    have hNetGoal : ∀ m : String,
        ∃ fs, (postRequestRun (.netError m :: rest) (r + 1)).out = .ret (.obj fs)
          ∧ (hasErrorSubstrKey fs = false ∨ (jGet fs "error").isSome = true) := by
      intro m
      by_cases hr : r = 0
      · subst hr
        refine ⟨.cons "error" (.str ("Max retries reached. Last error: " ++ m)) .nil, ?_, ?_⟩
        · simp [postRequestRun, errStr, errObj]
        · right
          simp [jGet]
      · have h1r : 1 ≤ r := by omega
        have hlr : r ≤ rest.length := by simp at hlen; omega
        obtain ⟨fs, hout, hfs⟩ := ih r h1r hlr hsafeRest
        refine ⟨fs, ?_, hfs⟩
        simp only [postRequestRun]
        rw [if_neg hr]
        exact hout
    have hErrDGoal : ∀ (j : Json), classify j = .errorDict →
        ∃ fs, (postRequestRun (.ok j :: rest) (r + 1)).out = .ret (.obj fs)
          ∧ (hasErrorSubstrKey fs = false ∨ (jGet fs "error").isSome = true) := by
      intro j hcl
      refine ⟨.cons "error" j .nil, ?_, ?_⟩
      · simp [postRequestRun, hcl, errObj]
      · right
        simp [jGet]
    rcases hsafe t (by simp) with ⟨m, rfl⟩ | ⟨fs, rfl, hce, hst⟩
    · exact hNetGoal m
    · by_cases he : hasErrorSubstrKey fs
      · have hStatusGoal :
            (jGet fs "error_code" = some (.str "ComplexityException") → False) ∨ True →
            classify (.obj fs) = classifyStatus fs ∨ True := fun _ => Or.inr trivial
        have hstatus : classifyStatus fs = .errorDict
            ∨ classifyStatus fs = .retryAfter rateLimitSeconds mutationMsg := by
          unfold classifyStatus
          rcases hsc : jGet fs "status_code" with _ | v
          · simp
          · rcases hst v hsc with ⟨n, rfl⟩ | ⟨b, rfl⟩
            · by_cases h429 : n = 429
              · simp [h429]
              · simp [h429]
            · cases b <;> simp
        rcases hcode : jGet fs "error_code" with _ | v
        · have hcs : classify (.obj fs) = classifyStatus fs := by
            simp [classify, he, hcode]
          rcases hstatus with h | h
          · exact hErrDGoal _ (hcs.trans h)
          · exact hRetryGoal _ _ _ (hcs.trans h)
        · have hosGoal : classify (.obj fs) = classifyStatus fs →
              ∃ gs, (postRequestRun (.ok (.obj fs) :: rest) (r + 1)).out = .ret (.obj gs)
                ∧ (hasErrorSubstrKey gs = false ∨ (jGet gs "error").isSome = true) := by
            intro hcs
            rcases hstatus with h | h
            · exact hErrDGoal _ (hcs.trans h)
            · exact hRetryGoal _ _ _ (hcs.trans h)
          rcases v with _ | b | n | code | xs | gs
          · exact hosGoal (by simp [classify, he, hcode])
          · exact hosGoal (by simp [classify, he, hcode])
          · exact hosGoal (by simp [classify, he, hcode])
          · by_cases hCE : code = "ComplexityException"
            · subst hCE
              obtain ⟨m, hm⟩ := hce hcode
              rcases hsearch : searchSeconds m.data with _ | num
              · have : classify (.obj fs) = .errorDict := by
                  simp [classify, he, hcode, hm, hsearch]
                exact hErrDGoal _ this
              · have : classify (.obj fs)
                    = .retryAfter (ceilSeconds num) (complexityMsg (ceilSeconds num)) := by
                  simp [classify, he, hcode, hm, hsearch]
                exact hRetryGoal _ _ _ this
            · exact hosGoal (by simp [classify, he, hcode, hCE])
          · exact hosGoal (by simp [classify, he, hcode])
          · exact hosGoal (by simp [classify, he, hcode])
      · refine ⟨fs, ?_, Or.inl (by simpa using he)⟩
        have hcl : classify (.obj fs) = .success := by
          simp [classify, he]
        simp [postRequestRun, hcl]

theorem c9_returns_error_dict_witness :
    ∃ fs, (postRequestRun
        [.ok (.obj (.cons "errors" (.arr .nil) .nil)),
         .netError "connection reset",
         .ok (.obj (.cons "data" .null .nil))] 3).out = .ret (.obj fs)
      ∧ (hasErrorSubstrKey fs = false ∨ (jGet fs "error").isSome = true) :=
  c9_returns_error_dict
    [.ok (.obj (.cons "errors" (.arr .nil) .nil)),
     .netError "connection reset",
     .ok (.obj (.cons "data" .null .nil))] 3
    (by norm_num) (by norm_num)
    (by
      intro t ht
      rcases List.mem_cons.mp ht with rfl | ht
      · exact Or.inr ⟨_, rfl, fun h => by simp [jGet] at h, fun v hv => by simp [jGet] at hv⟩
      rcases List.mem_cons.mp ht with rfl | ht
      · exact Or.inl ⟨_, rfl⟩
      rcases List.mem_cons.mp ht with rfl | ht
      · exact Or.inr ⟨_, rfl, fun h => by simp [jGet] at h, fun v hv => by simp [jGet] at hv⟩
      · simp at ht)

/-- Conversion of a modelled JSON array to a Lean list. -/
def jarrToList : JsonArr → List Json
  | .nil => []
  | .cons x rest => x :: jarrToList rest

mutual
/-- Recursive cursor extraction, `extract_cursor_from_response`
(src/monday/services/utils/pagination.py lines 61-86).  Python returns the
found value or `None`; `None` and JSON `null` are the same Python object, so
the model returns `Json.null` for "not found". -/
def extract_cursor_from_response : Json → Json
  | .obj fs => extractCursorObj fs
  | .arr xs => extractCursorArr xs
  | _ => .null
/-- Dict part of the cursor search: first entry whose key is `cursor` stops
the scan with its value; otherwise a recursive result is kept only when it
`is not None`. -/
def extractCursorObj : JsonObj → Json
  | .nil => .null
  | .cons k v rest =>
    if k = "cursor" then v
    else
      let r := extract_cursor_from_response v
      if r = .null then extractCursorObj rest else r
/-- List part of the cursor search. -/
def extractCursorArr : JsonArr → Json
  | .nil => .null
  | .cons x rest =>
    let r := extract_cursor_from_response x
    if r = .null then extractCursorArr rest else r
end

mutual
/-- Search for the value of the first key literally named `cursor` in
depth-first order, stopping at the first match whatever its value.  Modelled
from the spec wording of §4.3: "the first key literally named `cursor` found
anywhere in the tree is the continuation token (search stops at first
match)". -/
def firstCursorSpec : Json → Option Json
  | .obj fs => firstCursorSpecObj fs
  | .arr xs => firstCursorSpecArr xs
  | _ => none
/-- Dict part of the spec-side depth-first cursor search. -/
def firstCursorSpecObj : JsonObj → Option Json
  | .nil => none
  | .cons k v rest =>
    if k = "cursor" then some v
    else
      match firstCursorSpec v with
      | some r => some r
      | none => firstCursorSpecObj rest
/-- List part of the spec-side depth-first cursor search. -/
def firstCursorSpecArr : JsonArr → Option Json
  | .nil => none
  | .cons x rest =>
    match firstCursorSpec x with
    | some r => some r
    | none => firstCursorSpecArr rest
end

mutual
theorem cursorFacts : ∀ t : Json,
    (firstCursorSpec t = none → extract_cursor_from_response t = .null)
    ∧ ∀ v, firstCursorSpec t = some v → v ≠ .null → extract_cursor_from_response t = v
  | .null => by simp [firstCursorSpec, extract_cursor_from_response]
  | .bool b => by simp [firstCursorSpec, extract_cursor_from_response]
  | .int n => by simp [firstCursorSpec, extract_cursor_from_response]
  | .str s => by simp [firstCursorSpec, extract_cursor_from_response]
  | .arr xs => by
    have h := cursorFactsArr xs
    simpa [firstCursorSpec, extract_cursor_from_response] using h
  | .obj fs => by
    have h := cursorFactsObj fs
    simpa [firstCursorSpec, extract_cursor_from_response] using h
theorem cursorFactsObj : ∀ fs : JsonObj,
    (firstCursorSpecObj fs = none → extractCursorObj fs = .null)
    ∧ ∀ v, firstCursorSpecObj fs = some v → v ≠ .null → extractCursorObj fs = v
  | .nil => by simp [firstCursorSpecObj, extractCursorObj]
  | .cons k v rest => by
    have hv := cursorFacts v
    have hr := cursorFactsObj rest
    by_cases hk : k = "cursor"
    · constructor
      · intro h
        rw [firstCursorSpecObj, if_pos hk] at h
        simp at h
      · intro w hw hwn
        rw [firstCursorSpecObj, if_pos hk] at hw
        injection hw with hw
        subst hw
        rw [extractCursorObj, if_pos hk]
    · constructor
      · intro h
        rw [firstCursorSpecObj, if_neg hk] at h
        rcases hfv : firstCursorSpec v with _ | r
        · rw [hfv] at h
          have h1 := hv.1 hfv
          rw [extractCursorObj, if_neg hk]
          simp only [h1, if_pos rfl]
          exact hr.1 h
        · rw [hfv] at h
          simp at h
      · intro w hw hwn
        rw [firstCursorSpecObj, if_neg hk] at hw
        rcases hfv : firstCursorSpec v with _ | r
        · rw [hfv] at hw
          have h1 := hv.1 hfv
          rw [extractCursorObj, if_neg hk]
          simp only [h1, if_pos rfl]
          exact hr.2 w hw hwn
        · rw [hfv] at hw
          injection hw with hw
          subst hw
          have h2 := hv.2 r hfv hwn
          rw [extractCursorObj, if_neg hk]
          simp only [h2, if_neg hwn]
theorem cursorFactsArr : ∀ xs : JsonArr,
    (firstCursorSpecArr xs = none → extractCursorArr xs = .null)
    ∧ ∀ v, firstCursorSpecArr xs = some v → v ≠ .null → extractCursorArr xs = v
  | .nil => by simp [firstCursorSpecArr, extractCursorArr]
  | .cons x rest => by
    have hx := cursorFacts x
    have hr := cursorFactsArr rest
    constructor
    · intro h
      rw [firstCursorSpecArr] at h
      rcases hfv : firstCursorSpec x with _ | r
      · rw [hfv] at h
        have h1 := hx.1 hfv
        rw [extractCursorArr]
        simp only [h1, if_pos rfl]
        exact hr.1 h
      · rw [hfv] at h
        simp at h
    · intro w hw hwn
      rw [firstCursorSpecArr] at hw
      rcases hfv : firstCursorSpec x with _ | r
      · rw [hfv] at hw
        have h1 := hx.1 hfv
        rw [extractCursorArr]
        simp only [h1, if_pos rfl]
        exact hr.2 w hw hwn
      · rw [hfv] at hw
        injection hw with hw
        subst hw
        have h2 := hx.2 r hfv hwn
        rw [extractCursorArr]
        simp only [h2, if_neg hwn]
end

/-- C4 counterexample: in the tree with first (depth-first) cursor key
holding null under key `a` and a later cursor key holding "xyz" under key
`b`, the spec-side first-match search finds the null, yet
`extract_cursor_from_response` skips the nested null match and returns the
later cursor "xyz" — so the search does not stop at the first match. -/
theorem c4_counterexample :
    firstCursorSpec (.obj (.cons "a" (.obj (.cons "cursor" .null .nil))
        (.cons "b" (.obj (.cons "cursor" (.str "xyz") .nil)) .nil))) = some .null
    ∧ extract_cursor_from_response (.obj (.cons "a" (.obj (.cons "cursor" .null .nil))
        (.cons "b" (.obj (.cons "cursor" (.str "xyz") .nil)) .nil))) = .str "xyz"
    ∧ Json.str "xyz" ≠ Json.null :=
  ⟨rfl, rfl, by decide⟩

/-- C4 amended: cursor extraction returns the value of the first key
literally named `cursor` in depth-first order provided that value is
non-null; when the first cursor value is null the search result is the
Python `None` at that level, which a surrounding recursion treats as
not-found, so a nested null-valued cursor is skipped and a later cursor key
may be consulted. -/
theorem c4_first_cursor_depth_first (t v : Json)
    (h1 : firstCursorSpec t = some v) (h2 : v ≠ .null) :
    extract_cursor_from_response t = v :=
  (cursorFacts t).2 v h1 h2

theorem c4_first_cursor_depth_first_witness :
    extract_cursor_from_response
        (.obj (.cons "boards" (.obj (.cons "cursor" (.str "abc")
          (.cons "x" (.obj (.cons "cursor" (.str "later") .nil)) .nil))) .nil))
      = .str "abc" :=
  c4_first_cursor_depth_first _ _ rfl (by decide)

mutual
/-- Recursive item extraction, `extract_items_from_response`
(src/monday/services/utils/pagination.py lines 89-113): a dict entry whose
key is `items` and whose value is a list contributes that list's elements;
any other value is searched recursively; list elements are searched in
order. -/
def extract_items_from_response : Json → List Json
  | .obj fs => extractItemsObj fs
  | .arr xs => extractItemsArr xs
  | _ => []
/-- Dict part of the item extraction. -/
def extractItemsObj : JsonObj → List Json
  | .nil => []
  | .cons k v rest =>
    (match v with
     | .arr xs => if k = "items" then jarrToList xs else extractItemsArr xs
     | w => extract_items_from_response w) ++ extractItemsObj rest
/-- List part of the item extraction. -/
def extractItemsArr : JsonArr → List Json
  | .nil => []
  | .cons x rest => extract_items_from_response x ++ extractItemsArr rest
end

mutual
/-- Every list-valued `items` entry of the tree in depth-first encounter
order, descending into every value including the elements of collected
lists.  Modelled from the claim wording of C6: the "lists under keys
literally named `items` at any depths". -/
def itemsListsSpec : Json → List (List Json)
  | .obj fs => itemsListsSpecObj fs
  | .arr xs => itemsListsSpecArr xs
  | _ => []
/-- Dict part of the spec-side full depth-first collection. -/
def itemsListsSpecObj : JsonObj → List (List Json)
  | .nil => []
  | .cons k v rest =>
    (match v with
     | .arr xs => (if k = "items" then [jarrToList xs] else []) ++ itemsListsSpecArr xs
     | w => itemsListsSpec w) ++ itemsListsSpecObj rest
/-- List part of the spec-side full depth-first collection. -/
def itemsListsSpecArr : JsonArr → List (List Json)
  | .nil => []
  | .cons x rest => itemsListsSpec x ++ itemsListsSpecArr rest
end

mutual
/-- The list-valued `items` entries the code actually collects, in
depth-first encounter order: as `itemsListsSpec` but not descending into the
elements of a collected list. -/
def itemsListsOuter : Json → List (List Json)
  | .obj fs => itemsListsOuterObj fs
  | .arr xs => itemsListsOuterArr xs
  | _ => []
/-- Dict part of the pruned depth-first collection. -/
def itemsListsOuterObj : JsonObj → List (List Json)
  | .nil => []
  | .cons k v rest =>
    (match v with
     | .arr xs => if k = "items" then [jarrToList xs] else itemsListsOuterArr xs
     | w => itemsListsOuter w) ++ itemsListsOuterObj rest
/-- List part of the pruned depth-first collection. -/
def itemsListsOuterArr : JsonArr → List (List Json)
  | .nil => []
  | .cons x rest => itemsListsOuter x ++ itemsListsOuterArr rest
end

/-- C6 counterexample: in the tree where an `items` list's single element
itself holds an inner `items` list, the concatenation of all depth-first
`items` lists has two members (the outer element and the inner "x"), but
extraction returns only the outer list's element: the traversal does not
descend into a collected list, so the inner list is not appended. -/
theorem c6_counterexample :
    extract_items_from_response
        (.obj (.cons "items" (.arr (.cons (.obj (.cons "items" (.arr (.cons (.str "x") .nil)) .nil)) .nil)) .nil))
      = [.obj (.cons "items" (.arr (.cons (.str "x") .nil)) .nil)]
    ∧ (itemsListsSpec
        (.obj (.cons "items" (.arr (.cons (.obj (.cons "items" (.arr (.cons (.str "x") .nil)) .nil)) .nil)) .nil))).flatten
      = [.obj (.cons "items" (.arr (.cons (.str "x") .nil)) .nil), .str "x"]
    ∧ extract_items_from_response
        (.obj (.cons "items" (.arr (.cons (.obj (.cons "items" (.arr (.cons (.str "x") .nil)) .nil)) .nil)) .nil))
      ≠ (itemsListsSpec
        (.obj (.cons "items" (.arr (.cons (.obj (.cons "items" (.arr (.cons (.str "x") .nil)) .nil)) .nil)) .nil))).flatten :=
  ⟨rfl, rfl, by decide⟩

mutual
theorem itemsFacts : ∀ t : Json,
    extract_items_from_response t = (itemsListsOuter t).flatten
  | .null => rfl
  | .bool b => rfl
  | .int n => rfl
  | .str s => rfl
  | .arr xs => by
    rw [extract_items_from_response, itemsListsOuter, itemsFactsArr xs]
  | .obj fs => by
    rw [extract_items_from_response, itemsListsOuter, itemsFactsObj fs]
theorem itemsFactsObj : ∀ fs : JsonObj,
    extractItemsObj fs = (itemsListsOuterObj fs).flatten
  | .nil => rfl
  | .cons k v rest => by
    rcases v with _ | b | n | s | xs | gs
    · rw [extractItemsObj, itemsListsOuterObj, List.flatten_append, itemsFactsObj rest, itemsFacts] <;> simp
    · rw [extractItemsObj, itemsListsOuterObj, List.flatten_append, itemsFactsObj rest, itemsFacts] <;> simp
    · rw [extractItemsObj, itemsListsOuterObj, List.flatten_append, itemsFactsObj rest, itemsFacts] <;> simp
    · rw [extractItemsObj, itemsListsOuterObj, List.flatten_append, itemsFactsObj rest, itemsFacts] <;> simp
    · by_cases hk : k = "items"
      · rw [extractItemsObj, itemsListsOuterObj, List.flatten_append, itemsFactsObj rest]
        simp [hk]
      · rw [extractItemsObj, itemsListsOuterObj, List.flatten_append, itemsFactsObj rest]
        simp only [hk, if_false]
        rw [itemsFactsArr xs]
    · rw [extractItemsObj, itemsListsOuterObj, List.flatten_append, itemsFactsObj rest, itemsFacts] <;> simp
theorem itemsFactsArr : ∀ xs : JsonArr,
    extractItemsArr xs = (itemsListsOuterArr xs).flatten
  | .nil => rfl
  | .cons x rest => by
    rw [extractItemsArr, itemsListsOuterArr, List.flatten_append, itemsFacts x, itemsFactsArr rest]
end

/-- C6 amended: response-side item extraction returns the concatenation, in
depth-first encounter order, of every list-valued `items` entry that is not
itself nested inside another collected `items` list — the traversal collects
a list and does not descend into its elements, so `items` lists inside
collected items are not separately appended. -/
theorem c6_nested_extraction (t : Json) :
    extract_items_from_response t = (itemsListsOuter t).flatten :=
  itemsFacts t

/-- Leftmost occurrence index of a substring, Python `hay.find(needle)`
(`None` for Python's `-1`). -/
def findSub (needle : List Char) : List Char → Option Nat
  | [] => if isPrefixCL needle [] then some 0 else none
  | hay@(_ :: rest) =>
    if isPrefixCL needle hay then some 0
    else (findSub needle rest).map (· + 1)

/-- Brace scan of `extract_items_from_query` (pagination.py lines 133-149):
starting at the found index with `brace_count = 0`, count an opening brace
up and a closing brace down; the first time the count returns to zero the span ends just after that
closing brace.  The first argument is the suffix of the query from the start
index, the accumulator is the number of characters consumed so far.  If the
text runs out the loop ended without balancing: `brace_count != 0` yields
`None`; a zero count without a break leaves `end_index = start_index`, an
empty span. -/
def scanBrace : List Char → Int → Nat → Option Nat
  | [], cnt, _ => if cnt = 0 then some 0 else none
  | c :: rest, cnt, consumed =>
    if c = '\x7b' then scanBrace rest (cnt + 1) (consumed + 1)
    else if c = '\x7d' then
      if cnt - 1 = 0 then some (consumed + 1)
      else scanBrace rest (cnt - 1) (consumed + 1)
    else scanBrace rest cnt (consumed + 1)

/-- Python `block.replace('cursor', '')`: remove the occurrences of `cursor`
left to right, non-overlapping (pagination.py line 155). -/
def replaceCursor : List Char → List Char
  | 'c' :: 'u' :: 'r' :: 's' :: 'o' :: 'r' :: rest => replaceCursor rest
  | c :: rest => c :: replaceCursor rest
  | [] => []

/-- Python whitespace test for `str.strip()`. -/
def isSpaceCh (c : Char) : Bool :=
  c = ' ' || c = '\t' || c = '\n' || c = '\r' || c = '\x0b' || c = '\x0c'

/-- Drop leading whitespace. -/
def dropLeadWS : List Char → List Char
  | [] => []
  | c :: rest => if isSpaceCh c then dropLeadWS rest else c :: rest

/-- Python `s.strip()`: drop leading and trailing whitespace. -/
def stripWS (s : List Char) : List Char :=
  (dropLeadWS (dropLeadWS s).reverse).reverse

/-- Query-side selection-set extraction, `extract_items_from_query`
(pagination.py lines 116-157): find the first occurrence of the text
`items` followed by a space and an opening brace,
take the balanced-brace span from there, remove `cursor` occurrences and
strip whitespace; `None` when the span is absent or never balances. -/
def extract_items_from_query (q : List Char) : Option (List Char) :=
  match findSub "items \x7b".data q with
  | none => none
  | some i =>
    match scanBrace (q.drop i) 0 0 with
    | none => none
    | some len => some (stripWS (replaceCursor ((q.drop i).take len)))

/-- Decimal digit character. -/
def digitChar : Nat → Char
  | 0 => '0'
  | 1 => '1'
  | 2 => '2'
  | 3 => '3'
  | 4 => '4'
  | 5 => '5'
  | 6 => '6'
  | 7 => '7'
  | 8 => '8'
  | 9 => '9'
  | _ => '0'

/-- Decimal rendering of a natural number (Python `str(int)` as embedded by
the driver's f-string), fuel-structured so that it evaluates by `rfl`. -/
def natDigitsAux : Nat → Nat → List Char
  | 0, _ => []
  | fuel + 1, n => if n < 10 then [digitChar n] else natDigitsAux fuel (n / 10) ++ [digitChar (n % 10)]

/-- Decimal digits of `n`. -/
def natDigits (n : Nat) : List Char := natDigitsAux (n + 1) n

/-- The continuation query synthesized by the driver (pagination.py lines
193-202): the f-string with the page limit, the current cursor token and the
extracted item selection set interpolated, including its literal
indentation. -/
def contQuery (limit : Nat) (cursor : List Char) (itemsVal : List Char) : List Char :=
  "\n                query \x7b\n                    next_items_page (\n                        limit: ".data
    ++ natDigits limit
    ++ ",\n                        cursor: \"".data
    ++ cursor
    ++ "\"\n                    ) \x7b\n                        cursor ".data
    ++ itemsVal
    ++ "\n                    \x7d\n                \x7d\n            ".data

/-- Running brace balance check: `none` is a failed (negative) prefix,
otherwise the open-brace count after the segment. -/
def balCount : List Char → Nat → Option Nat
  | [], k => some k
  | c :: rest, k =>
    if c = '\x7b' then balCount rest (k + 1)
    else if c = '\x7d' then
      match k with
      | 0 => none
      | k' + 1 => balCount rest k'
    else balCount rest k

/-- A string is brace-balanced when scanning it never closes an unopened
brace and ends with zero open braces. -/
def balancedBraces (s : List Char) : Bool := balCount s 0 = some 0

theorem balCount_append (a b : List Char) (k : Nat) :
    balCount (a ++ b) k
      = match balCount a k with
        | none => none
        | some j => balCount b j := by
  induction a generalizing k with
  | nil => simp [balCount]
  | cons c rest ih =>
    by_cases h1 : c = '\x7b'
    · simp [balCount, h1, ih]
    · by_cases h2 : c = '\x7d'
      · rcases k with _ | k'
        · simp [balCount, h1, h2]
        · simp [balCount, h1, h2, ih]
      · simp [balCount, h1, h2, ih]

theorem balCount_nobrace (a : List Char) (k : Nat)
    (h : ∀ c ∈ a, c ≠ '\x7b' ∧ c ≠ '\x7d') : balCount a k = some k := by
  induction a with
  | nil => rfl
  | cons c rest ih =>
    have hc := h c (by simp)
    rw [balCount.eq_def]
    simp only []
    rw [if_neg hc.1, if_neg hc.2]
    exact ih fun x hx => h x (by simp [hx])

theorem digitChar_bounds (n : Nat) : 48 ≤ (digitChar n).toNat ∧ (digitChar n).toNat ≤ 57 := by
  match n with
  | 0 => decide
  | 1 => decide
  | 2 => decide
  | 3 => decide
  | 4 => decide
  | 5 => decide
  | 6 => decide
  | 7 => decide
  | 8 => decide
  | 9 => decide
  | m + 10 => exact (by decide : 48 ≤ ('0' : Char).toNat ∧ ('0' : Char).toNat ≤ 57)

theorem natDigitsAux_digits (fuel n : Nat) :
    ∀ c ∈ natDigitsAux fuel n, 48 ≤ c.toNat ∧ c.toNat ≤ 57 := by
  induction fuel generalizing n with
  | zero => simp [natDigitsAux]
  | succ f ih =>
    rw [natDigitsAux]
    by_cases h : n < 10
    · simp only [h, if_true]
      intro c hc
      rw [List.mem_singleton] at hc
      subst hc
      exact digitChar_bounds n
    · simp only [h, if_false]
      intro c hc
      rcases List.mem_append.mp hc with hc | hc
      · exact ih (n / 10) c hc
      · rw [List.mem_singleton] at hc
        subst hc
        exact digitChar_bounds (n % 10)

theorem natDigits_nobrace (n : Nat) : ∀ c ∈ natDigits n, c ≠ '\x7b' ∧ c ≠ '\x7d' := by
  intro c hc
  have h := natDigitsAux_digits (n + 1) n c hc
  constructor
  · intro hcontra
    subst hcontra
    simp at h
  · intro hcontra
    subst hcontra
    simp at h

/-- Python truthiness on JSON values, the `if not cursor` test. -/
def pyFalsy : Json → Bool
  | .null => true
  | .bool b => !b
  | .int n => decide (n = 0)
  | .str s => decide (s = "")
  | .arr .nil => true
  | .arr (.cons _ _) => false
  | .obj .nil => true
  | .obj (.cons _ _ _) => false

/-- Python `==` on the id values compared by the board merge.  Python
compares `True == 1`; dict comparison is modelled as same insertion order
(the ids the merge compares are strings or integers, where the model agrees
with Python exactly). -/
def pyEq (a b : Json) : Bool :=
  match a, b with
  | .bool x, .int m => decide ((if x then 1 else 0 : Int) = m)
  | .int n, .bool y => decide (n = (if y then 1 else 0 : Int))
  | x, y => decide (x = y)

/-- List membership of the string `key` under Python `==`. -/
def jarrContains : JsonArr → String → Bool
  | .nil, _ => false
  | .cons x rest, key => pyEq x (.str key) || jarrContains rest key

/-- Python `key in v` for the `'boards' in data['data']` test: dict key
membership, list membership, substring test on a string; `none` models the
`TypeError` of `in` on other values. -/
def pyContainsKey (v : Json) (key : String) : Option Bool :=
  match v with
  | .obj fs => some (jGet fs key).isSome
  | .arr xs => some (jarrContains xs key)
  | .str s => some (containsSub key.data s.data)
  | _ => none

/-- Conversion of a Lean list back to a modelled JSON array. -/
def jsonListToArr : List Json → JsonArr
  | [] => .nil
  | x :: rest => .cons x (jsonListToArr rest)

/-- Concatenation of modelled JSON arrays (Python `list.extend`). -/
def jarrAppend : JsonArr → JsonArr → JsonArr
  | .nil, ys => ys
  | .cons x rest, ys => .cons x (jarrAppend rest ys)

/-- In-place update of the value at the first occurrence of a key
(the mutation `existing_board['items'].extend(...)`). -/
def setKey : JsonObj → String → Json → JsonObj
  | .nil, _, _ => .nil
  | .cons k v rest, key, newv =>
    if k = key then .cons k newv rest else .cons k v (setKey rest key newv)

/-- Outcome of one run of `paginated_item_request`: a returned dict, a
raised `PaginationError`, the `TypeError` raised by the
`PaginationError(msg, json=data)` call (the `PaginationError` constructor
in src/monday/exceptions.py lines 67-76 accepts only a message, so the
`json` keyword argument makes the call itself raise `TypeError`), a
`MondayAPIError` from `check_query_result`, another Python error, or a
transport script too short for the run. -/
inductive DriverOut where
  | ret : Json → DriverOut
  | raisePagination : String → DriverOut
  | raiseTypeError : DriverOut
  | raiseAPIError : DriverOut
  | crash : String → DriverOut
  | hang : DriverOut
  deriving DecidableEq

/-- A finished driver run: the outcome and the number of requests placed
through the governed transport. -/
structure DriverRun where
  out : DriverOut
  requests : Nat
  deriving DecidableEq

/-- Result of processing the board list of one boards page
(pagination.py lines 210-222). -/
inductive BoardsStep where
  | ok : List Json → BoardsStep
  | typeError : BoardsStep
  | crash : String → BoardsStep
  deriving DecidableEq

/-- The board merge of pagination.py lines 214-222: find the first combined
entry with the same `board_id` and extend its `items` in place, else append
a fresh `board_id`/`items` entry at the end. -/
def mergeBoard : List Json → Json → Json → Except String (List Json)
  | [], idv, itemsv => .ok [.obj (.cons "board_id" idv (.cons "items" itemsv .nil))]
  | e :: rest, idv, itemsv =>
    match e with
    | .obj efs =>
      match jGet efs "board_id" with
      | some w =>
        if pyEq w idv then
          match jGet efs "items", itemsv with
          | some (.arr exist), .arr newxs =>
            .ok (.obj (setKey efs "items" (.arr (jarrAppend exist newxs))) :: rest)
          | _, _ => .error "TypeError: extend on or with a non-list"
        else
          match mergeBoard rest idv itemsv with
          | .ok rest' => .ok (e :: rest')
          | .error msg => .error msg
      | none => .error "KeyError: board_id"
    | _ => .error "TypeError: combined entry is not a dict"

/-- The board loop of pagination.py lines 210-222.  A board whose
`items_page` is `None` hits the raise at line 213, whose bad keyword
argument makes it a `TypeError` (see `DriverOut.raiseTypeError`). -/
def processBoards : List Json → List Json → BoardsStep
  | [], acc => .ok acc
  | b :: rest, acc =>
    match b with
    | .obj bfs =>
      match jGet bfs "items_page" with
      | none => .crash "KeyError: items_page"
      | some .null => .typeError
      | some (.obj pfs) =>
        match jGet bfs "id", jGet pfs "items" with
        | some idv, some itemsv =>
          match mergeBoard acc idv itemsv with
          | .ok acc' => processBoards rest acc'
          | .error msg => .crash msg
        | _, _ => .crash "KeyError: id or items"
      | some _ => .crash "TypeError: items_page is not a dict"
    | _ => .crash "TypeError: board is not a dict"

/-- Result of handling one scripted response inside the driver loop. -/
inductive PageRes where
  | err : DriverOut → PageRes
  | next : List Json → PageRes

/-- Handling of one response by `paginated_item_request` (pagination.py
lines 204-231): the `'error' in response_data` early return, then
`check_query_result` (error_handlers.py lines 30-33), then either the
boards branch or generic item extraction.  The guard at lines 226-229
re-tests `'data' not in data` under the branch already guaranteed to have
`data`: it is kept literally (and is provably dead). -/
def processPage (r : Json) (combined : List Json) : PageRes :=
  match r with
  | .obj rfs =>
    if (jGet rfs "error").isSome then .err (.ret r)
    else if hasErrorSubstrKey rfs then .err .raiseAPIError
    else
      match jGet rfs "data" with
      | none => .err .raiseAPIError
      | some dataVal =>
        match pyContainsKey dataVal "boards" with
        | none => .err (.crash "TypeError: membership test on data value")
        | some true =>
          match dataVal with
          | .obj dfs =>
            match jGet dfs "boards" with
            | some (.arr bs) =>
              match processBoards (jarrToList bs) combined with
              | .ok combined' => .next combined'
              | .typeError => .err .raiseTypeError
              | .crash why => .err (.crash why)
            | some _ => .err (.crash "iterating a non-list boards value")
            | none => .err (.crash "unreachable: boards key vanished")
          | _ => .err (.crash "TypeError: string-keyed indexing of a non-dict data value")
        | some false =>
          let items := extract_items_from_response r
          if items = [] then
            if (jGet rfs "data").isNone then .err (.raisePagination "Item pagination failed")
            else .next combined
          else .next (combined ++ items)
  | _ => .err (.crash "non-dict response")

/-- The loop of `paginated_item_request` (pagination.py lines 160-237) run
against a script of governed responses.  Arguments: remaining script, the
original query text, the page limit, the current cursor value (the string
`start` is the sentinel), the accumulated `combined_items`, and the number
of requests already made.  On a continuation step the selection set is
extracted from the original query; a falsy result (`None`, and in the model
also the empty string) raises `PaginationError` before any request.  The
synthesized continuation query text (`contQuery`) does not influence the
scripted transport, so the loop does not rebuild it. -/
def driverGo : List Json → List Char → Nat → Json → List Json → Nat → DriverRun
  | script, query, limit, cursor, combined, reqs =>
    let useOrig : Bool := match cursor with | .str s => decide (s = "start") | _ => false
    if useOrig = false
        ∧ (match extract_items_from_query query with
           | none => true
           | some v => decide (v = [])) = true then
      ⟨.raisePagination "Item pagination failed", reqs⟩
    else
      match script with
      | [] => ⟨.hang, reqs⟩
      | r :: rest =>
        match processPage r combined with
        | .err o => ⟨o, reqs + 1⟩
        | .next combined' =>
          let cur := extract_cursor_from_response r
          if pyFalsy cur then
            ⟨.ret (.obj (.cons "items" (.arr (jsonListToArr combined')) .nil)), reqs + 1⟩
          else driverGo rest query limit cur combined' (reqs + 1)

/-- Entry point of `paginated_item_request`: `cursor = cursor or 'start'`
(an absent or empty starting cursor becomes the sentinel), an empty
accumulator, and no requests yet. -/
def paginated_item_request (script : List Json) (query : List Char) (limit : Nat)
    (cursor : Option String) : DriverRun :=
  driverGo script query limit
    (match cursor with
     | none => .str "start"
     | some c => if c = "" then .str "start" else .str c)
    [] 0

/-- C3, behaviour of the code at the claim's failing input: a well-formed
successful response (it passes `check_query_result`, carrying `data`) with
no `items` list anywhere and no cursor at all.  The claim and the spec
require a pagination-failure raise here, but the inner guard
`'data' not in data` (pagination.py line 226) is always false after
`check_query_result` has guaranteed the `data` key, so the driver silently
completes with an empty item list after one request. -/
theorem c3_empty_page_silent_completion :
    paginated_item_request
        [.obj (.cons "data" (.obj (.cons "boards_count" (.int 5) .nil)) .nil)]
        "query \x7b boards \x7b boards_count \x7d \x7d".data 25 none
      = ⟨.ret (.obj (.cons "items" (.arr .nil) .nil)), 1⟩ := rfl

/-- C7 counterexample: on the spec's happy-path scenario (boards query, page
one with cursor "abc" and two items, page two with null cursor and one
item), the driver does not return the flat 3-item concatenation of the two
pages' items: the boards branch groups page one's items under a
`board_id`/`items` entry, so the returned list has two elements. -/
theorem c7_counterexample :
    paginated_item_request
        [.obj (.cons "data" (.obj (.cons "boards" (.arr (.cons (.obj (.cons "id" (.str "board1")
            (.cons "items_page" (.obj (.cons "cursor" (.str "abc")
              (.cons "items" (.arr (.cons (.obj (.cons "id" (.str "1") .nil))
                (.cons (.obj (.cons "id" (.str "2") .nil)) .nil))) .nil))) .nil))) .nil)) .nil)) .nil),
         .obj (.cons "data" (.obj (.cons "next_items_page" (.obj (.cons "cursor" .null
            (.cons "items" (.arr (.cons (.obj (.cons "id" (.str "3") .nil)) .nil)) .nil))) .nil)) .nil)]
        "boards \x7b items_page \x7b cursor items \x7b id \x7d \x7d \x7d".data 25 none
      ≠ ⟨.ret (.obj (.cons "items" (.arr
            (.cons (.obj (.cons "id" (.str "1") .nil))
              (.cons (.obj (.cons "id" (.str "2") .nil))
                (.cons (.obj (.cons "id" (.str "3") .nil)) .nil)))) .nil)), 2⟩ := by
  decide

/-- C7 amended: on the happy-path scenario the driver makes exactly two
requests and returns a two-element list: a grouping entry with the first
page's `board_id` and its two items, followed by the second page's item
appended flat. -/
theorem c7_happy_path :
    paginated_item_request
        [.obj (.cons "data" (.obj (.cons "boards" (.arr (.cons (.obj (.cons "id" (.str "board1")
            (.cons "items_page" (.obj (.cons "cursor" (.str "abc")
              (.cons "items" (.arr (.cons (.obj (.cons "id" (.str "1") .nil))
                (.cons (.obj (.cons "id" (.str "2") .nil)) .nil))) .nil))) .nil))) .nil)) .nil)) .nil),
         .obj (.cons "data" (.obj (.cons "next_items_page" (.obj (.cons "cursor" .null
            (.cons "items" (.arr (.cons (.obj (.cons "id" (.str "3") .nil)) .nil)) .nil))) .nil)) .nil)]
        "boards \x7b items_page \x7b cursor items \x7b id \x7d \x7d \x7d".data 25 none
      = ⟨.ret (.obj (.cons "items" (.arr
            (.cons (.obj (.cons "board_id" (.str "board1")
              (.cons "items" (.arr (.cons (.obj (.cons "id" (.str "1") .nil))
                (.cons (.obj (.cons "id" (.str "2") .nil)) .nil))) .nil)))
              (.cons (.obj (.cons "id" (.str "3") .nil)) .nil))) .nil)), 2⟩ := rfl

theorem jGet_setKey_other (fs : JsonObj) (key k2 : String) (v : Json) (h : k2 ≠ key) :
    jGet (setKey fs key v) k2 = jGet fs k2 := by
  induction fs using JsonObj.tailInduction with
  | h0 => rfl
  | h1 k w rest ih =>
    rw [setKey]
    by_cases hk : k = key
    · rw [if_pos hk, jGet, jGet]
      subst hk
      rw [if_neg (fun hc => h hc.symm), if_neg (fun hc => h hc.symm)]
    · rw [if_neg hk, jGet, jGet]
      by_cases hk2 : k = k2
      · rw [if_pos hk2, if_pos hk2]
      · rw [if_neg hk2, if_neg hk2, ih]

theorem jGet_setKey_same (fs : JsonObj) (key : String) (v w : Json)
    (h : jGet fs key = some w) : jGet (setKey fs key v) key = some v := by
  induction fs using JsonObj.tailInduction with
  | h0 => simp [jGet] at h
  | h1 k u rest ih =>
    rw [jGet] at h
    rw [setKey]
    by_cases hk : k = key
    · rw [if_pos hk, jGet, if_pos hk]
    · rw [if_neg hk] at h
      rw [if_neg hk, jGet, if_neg hk, ih h]

/-- A board entry the board loop can process without reaching a raise: a
dict with a non-null dict `items_page` carrying an `items` list, and an
`id`. -/
def ProcessableBoard (b : Json) : Prop :=
  ∃ bfs pfs idv xs, b = .obj bfs
    ∧ jGet bfs "items_page" = some (.obj pfs)
    ∧ jGet bfs "id" = some idv
    ∧ jGet pfs "items" = some (.arr xs)

/-- Shape invariant of the accumulated board entries. -/
def AccEntry (e : Json) : Prop :=
  ∃ efs idv xs, e = .obj efs
    ∧ jGet efs "board_id" = some idv
    ∧ jGet efs "items" = some (.arr xs)

theorem mergeBoard_ok (acc : List Json) (idv : Json) (xs : JsonArr)
    (hacc : ∀ e ∈ acc, AccEntry e) :
    ∃ acc', mergeBoard acc idv (.arr xs) = .ok acc' ∧ ∀ e ∈ acc', AccEntry e := by
  induction acc with
  | nil =>
    refine ⟨[.obj (.cons "board_id" idv (.cons "items" (.arr xs) .nil))], rfl, ?_⟩
    intro e he
    rw [List.mem_singleton] at he
    subst he
    exact ⟨_, idv, xs, rfl, by simp [jGet], by simp [jGet]⟩
  | cons e rest ih =>
    obtain ⟨efs, idv2, xs2, rfl, hid, hitems⟩ := hacc e (by simp)
    have hrest : ∀ x ∈ rest, AccEntry x := fun x hx => hacc x (by simp [hx])
    cases hEq : pyEq idv2 idv with
    | true =>
      have hm : mergeBoard (.obj efs :: rest) idv (.arr xs)
          = .ok (.obj (setKey efs "items" (.arr (jarrAppend xs2 xs))) :: rest) := by
        simp [mergeBoard, hid, hitems, hEq]
      rw [hm]
      refine ⟨_, rfl, ?_⟩
      intro x hx
      rcases List.mem_cons.mp hx with rfl | hx
      · refine ⟨_, idv2, jarrAppend xs2 xs, rfl, ?_, ?_⟩
        · rw [jGet_setKey_other efs "items" "board_id" _ (by decide), hid]
        · rw [jGet_setKey_same efs "items" _ _ hitems]
      · exact hrest x hx
    | false =>
      obtain ⟨rest', hmerge, hrest'⟩ := ih hrest
      have hm : mergeBoard (.obj efs :: rest) idv (.arr xs) = .ok (.obj efs :: rest') := by
        simp [mergeBoard, hid, hEq, hmerge]
      rw [hm]
      refine ⟨_, rfl, ?_⟩
      intro x hx
      rcases List.mem_cons.mp hx with rfl | hx
      · exact ⟨efs, idv2, xs2, rfl, hid, hitems⟩
      · exact hrest' x hx

theorem processBoards_typeError (pre : List Json) (acc : List Json) (badfs : JsonObj)
    (post : List Json) (hpre : ∀ b ∈ pre, ProcessableBoard b)
    (hacc : ∀ e ∈ acc, AccEntry e)
    (hbad : jGet badfs "items_page" = some .null) :
    processBoards (pre ++ .obj badfs :: post) acc = .typeError := by
  induction pre generalizing acc with
  | nil =>
    rw [List.nil_append, processBoards, hbad]
  | cons b pre2 ih =>
    obtain ⟨bfs, pfs, idv, xs, rfl, hip, hid, hitems⟩ := hpre b (by simp)
    obtain ⟨acc', hmerge, hacc'⟩ := mergeBoard_ok acc idv xs hacc
    have hm : processBoards (.obj bfs :: pre2 ++ .obj badfs :: post) acc
        = processBoards (pre2 ++ .obj badfs :: post) acc' := by
      simp [processBoards, hip, hid, hitems, hmerge]
    rw [hm]
    exact ih acc' (fun x hx => hpre x (by simp [hx])) hacc'

theorem jarrToList_jsonListToArr (l : List Json) : jarrToList (jsonListToArr l) = l := by
  induction l with
  | nil => rfl
  | cons x rest ih => rw [jsonListToArr, jarrToList, ih]

/-- C10: for every successful boards response in which some board's
`items_page` is null (with the earlier boards processable), the driver
neither returns normally nor raises `PaginationError`: the escaping
exception is the `TypeError` produced by the raise site's `json=` keyword
argument, which the `PaginationError` constructor does not accept. -/
theorem c10_board_null_items_page (query : List Char) (limit : Nat)
    (pre post : List Json) (badfs : JsonObj)
    (hpre : ∀ b ∈ pre, ProcessableBoard b)
    (hbad : jGet badfs "items_page" = some .null) :
    paginated_item_request
        [.obj (.cons "data" (.obj (.cons "boards"
            (.arr (jsonListToArr (pre ++ .obj badfs :: post))) .nil)) .nil)]
        query limit none
      = ⟨.raiseTypeError, 1⟩
    ∧ (∀ m reqs, (⟨.raiseTypeError, 1⟩ : DriverRun) ≠ ⟨.raisePagination m, reqs⟩)
    ∧ (∀ j reqs, (⟨.raiseTypeError, 1⟩ : DriverRun) ≠ ⟨.ret j, reqs⟩) := by
  refine ⟨?_, by intro m reqs h; simp at h, by intro j reqs h; simp at h⟩
  have hpb := processBoards_typeError pre [] badfs post hpre (by simp) hbad
  rw [paginated_item_request, driverGo]
  have hcs : containsSub ['e', 'r', 'r', 'o', 'r'] (lowerCL ['d', 'a', 't', 'a']) = false := by
    decide
  simp [processPage, jGet, hasErrorSubstrKey, pyContainsKey, jarrToList_jsonListToArr, hpb, hcs]

theorem c10_board_null_items_page_witness :
    paginated_item_request
        [.obj (.cons "data" (.obj (.cons "boards"
            (.arr (jsonListToArr ([] ++ .obj (.cons "items_page" .null .nil) :: []))) .nil)) .nil)]
        "q".data 25 none
      = ⟨.raiseTypeError, 1⟩
    ∧ (∀ m reqs, (⟨.raiseTypeError, 1⟩ : DriverRun) ≠ ⟨.raisePagination m, reqs⟩)
    ∧ (∀ j reqs, (⟨.raiseTypeError, 1⟩ : DriverRun) ≠ ⟨.ret j, reqs⟩) :=
  c10_board_null_items_page "q".data 25 [] [] (.cons "items_page" .null .nil)
    (by intro b hb; simp at hb) rfl

theorem isPrefixCL_iff (a : List Char) : ∀ b, isPrefixCL a b = true ↔ ∃ t, b = a ++ t := by
  induction a with
  | nil =>
    intro b
    simp [isPrefixCL]
  | cons x as ih =>
    intro b
    cases b with
    | nil =>
      simp [isPrefixCL]
    | cons y bs =>
      rw [isPrefixCL]
      simp only [Bool.and_eq_true, decide_eq_true_eq]
      constructor
      · rintro ⟨rfl, h⟩
        obtain ⟨t, rfl⟩ := (ih bs).mp h
        exact ⟨t, rfl⟩
      · rintro ⟨t, ht⟩
        rw [List.cons_append] at ht
        injection ht with h1 h2
        exact ⟨h1.symm, (ih bs).mpr ⟨t, h2⟩⟩

theorem prefix_contains (n h : List Char) (hp : isPrefixCL n h = true) :
    containsSub n h = true := by
  cases h with
  | nil => simpa [containsSub] using hp
  | cons c rest =>
    rw [containsSub, hp, Bool.true_or]

theorem findSub_block (pre post : List Char)
    (h : containsSub "items \x7b".data pre = false) :
    findSub "items \x7b".data (pre ++ "items \x7b id name \x7d".data ++ post)
      = some pre.length := by
  induction pre with
  | nil => rfl
  | cons c pre2 ih =>
    rw [List.append_assoc]
    rw [containsSub, Bool.or_eq_false_iff] at h
    have hnp : isPrefixCL "items \x7b".data
        ((c :: pre2) ++ ("items \x7b id name \x7d".data ++ post)) = false := by
      by_contra hcon
      rw [Bool.not_eq_false] at hcon
      obtain ⟨t, ht⟩ := (isPrefixCL_iff _ _).mp hcon
      by_cases hL : 7 ≤ (c :: pre2).length
      · have h1 : ("items \x7b".data ++ t).take 7 = "items \x7b".data :=
          List.take_left' (by decide)
        have h2 : ((c :: pre2) ++ ("items \x7b id name \x7d".data ++ post)).take 7
            = (c :: pre2).take 7 := List.take_append_of_le_length hL
        have h3 : (c :: pre2).take 7 = "items \x7b".data := by
          rw [← h2, ht, h1]
        have h4 : isPrefixCL "items \x7b".data (c :: pre2) = true := by
          rw [isPrefixCL_iff]
          exact ⟨(c :: pre2).drop 7, by rw [← h3, List.take_append_drop]⟩
        rw [h.1] at h4
        exact Bool.noConfusion h4
      · push_neg at hL
        have hget2 : ((c :: pre2) ++ ("items \x7b id name \x7d".data ++ post))[(c :: pre2).length]?
            = some 'i' := by
          rw [List.getElem?_append_right (le_refl _)]
          simp
        rw [ht, List.getElem?_append_left
          (show (c :: pre2).length < ("items \x7b".data).length from hL)] at hget2
        have hL1 : 1 ≤ (c :: pre2).length := by simp
        set L := (c :: pre2).length with hLdef
        interval_cases L <;> exact absurd hget2 (by decide)
    rw [List.cons_append] at hnp ⊢
    show (if isPrefixCL "items \x7b".data (c :: (pre2 ++ ("items \x7b id name \x7d".data ++ post))) = true
        then some 0
        else (findSub "items \x7b".data (pre2 ++ ("items \x7b id name \x7d".data ++ post))).map (· + 1))
      = some (c :: pre2).length
    rw [hnp]
    simp only [Bool.false_eq_true, if_false]
    have ih2 := ih h.2
    rw [List.append_assoc] at ih2
    rw [ih2]
    simp

theorem balCount_append_some (a b : List Char) (k j : Nat) (h : balCount a k = some j) :
    balCount (a ++ b) k = balCount b j := by
  rw [balCount_append, h]

theorem extract_query_block (pre post : List Char)
    (h : containsSub "items \x7b".data pre = false) :
    extract_items_from_query (pre ++ "items \x7b id name \x7d".data ++ post)
      = some "items \x7b id name \x7d".data := by
  have hf := findSub_block pre post h
  rw [List.append_assoc] at hf
  rw [List.append_assoc, extract_items_from_query, hf]
  show (match scanBrace ((pre ++ ("items \x7b id name \x7d".data ++ post)).drop pre.length) 0 0 with
      | none => none
      | some len =>
        some (stripWS (replaceCursor
          (((pre ++ ("items \x7b id name \x7d".data ++ post)).drop pre.length).take len))))
    = some "items \x7b id name \x7d".data
  rw [List.drop_left]
  rw [(show scanBrace ("items \x7b id name \x7d".data ++ post) 0 0 = some 17 from rfl)]
  show some (stripWS (replaceCursor (("items \x7b id name \x7d".data ++ post).take 17)))
    = some "items \x7b id name \x7d".data
  rw [@List.take_left' Char "items \x7b id name \x7d".data post 17 rfl]
  rfl

theorem contQuery_balanced (limit : Nat) (cursor : List Char)
    (hc : ∀ c ∈ cursor, c ≠ '\x7b' ∧ c ≠ '\x7d') :
    balancedBraces (contQuery limit cursor "items \x7b id name \x7d".data) = true := by
  rw [balancedBraces, contQuery]
  simp only [List.append_assoc]
  rw [balCount_append_some
    "\n                query \x7b\n                    next_items_page (\n                        limit: ".data
    _ 0 1 (by decide)]
  rw [balCount_append_some (natDigits limit) _ 1 1
    (balCount_nobrace _ _ (natDigits_nobrace limit))]
  rw [balCount_append_some ",\n                        cursor: \"".data _ 1 1 (by decide)]
  rw [balCount_append_some cursor _ 1 1 (balCount_nobrace _ _ hc)]
  rw [balCount_append_some "\"\n                    ) \x7b\n                        cursor ".data
    _ 1 2 (by decide)]
  rw [balCount_append_some "items \x7b id name \x7d".data _ 2 2 (by decide)]
  decide

theorem driver_extraction_failure (query : List Char) (limit : Nat) (rfs : JsonObj)
    (d : Json) (t : String)
    (hq : extract_items_from_query query = none)
    (herr : jGet rfs "error" = none)
    (hek : hasErrorSubstrKey rfs = false)
    (hdata : jGet rfs "data" = some d)
    (hboards : pyContainsKey d "boards" = some false)
    (hcur : extract_cursor_from_response (.obj rfs) = .str t)
    (ht1 : t ≠ "") (ht2 : t ≠ "start") :
    paginated_item_request [.obj rfs] query limit none
      = ⟨.raisePagination "Item pagination failed", 1⟩ := by
  by_cases hi : extract_items_from_response (.obj rfs) = [] <;>
    simp [paginated_item_request, driverGo, processPage, herr, hek, hdata, hboards, hcur,
      pyFalsy, ht1, ht2, hq, hi]

/-- C5: selection-set extraction round trip.  (1) For the selection set
`items` + open brace + ` id name ` + close brace, embedded after any
wrapper text free of an earlier `items `-open-brace occurrence, query-side extraction returns exactly that selection
set (its `cursor` occurrences removed — here none).  (2) Embedding the
extracted text into the driver's continuation query template yields a
brace-balanced query for every page limit and every brace-free cursor
token.  (3) If extraction fails on the original query, the first
continuation step raises `PaginationError` before any further request: one
request total. -/
theorem c5_selection_set_round_trip :
    (∀ pre post : List Char, containsSub "items \x7b".data pre = false →
      extract_items_from_query (pre ++ "items \x7b id name \x7d".data ++ post)
        = some "items \x7b id name \x7d".data)
    ∧ (∀ (limit : Nat) (cursor : List Char), (∀ c ∈ cursor, c ≠ '\x7b' ∧ c ≠ '\x7d') →
      balancedBraces (contQuery limit cursor "items \x7b id name \x7d".data) = true)
    ∧ (∀ (query : List Char) (limit : Nat) (rfs : JsonObj) (d : Json) (t : String),
      extract_items_from_query query = none →
      jGet rfs "error" = none →
      hasErrorSubstrKey rfs = false →
      jGet rfs "data" = some d →
      pyContainsKey d "boards" = some false →
      extract_cursor_from_response (.obj rfs) = .str t →
      t ≠ "" → t ≠ "start" →
      paginated_item_request [.obj rfs] query limit none
        = ⟨.raisePagination "Item pagination failed", 1⟩) :=
  ⟨extract_query_block, contQuery_balanced, driver_extraction_failure⟩

theorem c5_selection_set_round_trip_witness :
    extract_items_from_query
        ("query \x7b boards \x7b ".data ++ "items \x7b id name \x7d".data ++ " \x7d \x7d".data)
      = some "items \x7b id name \x7d".data
    ∧ balancedBraces (contQuery 25 "abc".data "items \x7b id name \x7d".data) = true
    ∧ paginated_item_request
        [.obj (.cons "data" (.obj (.cons "x" (.obj (.cons "cursor" (.str "abc") .nil)) .nil)) .nil)]
        "no selection".data 25 none
      = ⟨.raisePagination "Item pagination failed", 1⟩ :=
  ⟨c5_selection_set_round_trip.1 "query \x7b boards \x7b ".data " \x7d \x7d".data (by decide),
   c5_selection_set_round_trip.2.1 25 "abc".data (by decide),
   c5_selection_set_round_trip.2.2 "no selection".data 25
     (.cons "data" (.obj (.cons "x" (.obj (.cons "cursor" (.str "abc") .nil)) .nil)) .nil)
     (.obj (.cons "x" (.obj (.cons "cursor" (.str "abc") .nil)) .nil)) "abc"
     rfl rfl rfl rfl rfl rfl (by decide) (by decide)⟩

/-- A user record of the users listing: the identifier the final
deduplication keys on, plus the remaining rendered fields, opaque to the
pagination logic. -/
structure PyUser where
  id : Int
  rest : String
  deriving DecidableEq

/-- Seen-id set threaded by the dedup loop of `Users.query`
(src/monday/services/users.py lines 170-175). -/
def dedupGo (seen : List Int) : List PyUser → List PyUser
  | [] => []
  | u :: us => if u.id ∈ seen then dedupGo seen us else u :: dedupGo (u.id :: seen) us

/-- Final deduplication by record identifier, first occurrence kept
(users.py lines 169-177). -/
def dedupById (us : List PyUser) : List PyUser := dedupGo [] us

/-- The page loop of `Users.query` (users.py lines 144-167) with
`paginate=True`, run against the per-page-index script of responses:
stop on an empty page, on a page equal to the previous one (before
extending), or after extending on a page shorter than the limit; otherwise
request the next page index.  Returns the accumulated records and the
number of pages requested, or `none` when the script is exhausted with the
loop still running. -/
def usersLoop (limit : Nat) : List (List PyUser) → Option (List PyUser) → List PyUser →
    Option (List PyUser × Nat)
  | [], _, _ => none
  | p :: rest, last, acc =>
    if p = [] then some (acc, 1)
    else if some p = last then some (acc, 1)
    else
      let acc2 := acc ++ p
      if p.length < limit then some (acc2, 1)
      else
        match usersLoop limit rest (some p) acc2 with
        | none => none
        | some (r, n) => some (r, n + 1)

/-- `Users.query` with `paginate=True`: run the page loop from page one and
deduplicate the combined records by id. -/
def users_query (limit : Nat) (pages : List (List PyUser)) : Option (List PyUser × Nat) :=
  match usersLoop limit pages none [] with
  | none => none
  | some (acc, n) => some (dedupById acc, n)

/-- First page index at which the claim's stopping condition holds: a page
with fewer records than the requested page size, or a page identical to the
immediately preceding one.  Modelled from the claim wording of C8. -/
def usersStopIdx (limit : Nat) : List (List PyUser) → Option (List PyUser) → Option Nat
  | [], _ => none
  | p :: rest, last =>
    if p.length < limit ∨ some p = last then some 0
    else (usersStopIdx limit rest (some p)).map (· + 1)

/-- Ids recorded after deduplicating a block starting from `seen`. -/
def seenAfter (seen : List Int) : List PyUser → List Int
  | [] => seen
  | u :: us => if u.id ∈ seen then seenAfter seen us else seenAfter (u.id :: seen) us

theorem dedupGo_append (a : List PyUser) : ∀ (seen : List Int) (b : List PyUser),
    dedupGo seen (a ++ b) = dedupGo seen a ++ dedupGo (seenAfter seen a) b := by
  induction a with
  | nil => intro seen b; simp [dedupGo, seenAfter]
  | cons u us ih =>
    intro seen b
    rw [List.cons_append, dedupGo, dedupGo, seenAfter]
    by_cases h : u.id ∈ seen
    · simp only [h, if_true]
      exact ih seen b
    · simp only [h, if_false, List.cons_append]
      rw [ih (u.id :: seen) b]

theorem mem_seenAfter (a : List PyUser) : ∀ (seen : List Int) (x : Int),
    x ∈ seenAfter seen a ↔ x ∈ seen ∨ x ∈ a.map PyUser.id := by
  induction a with
  | nil => intro seen x; simp [seenAfter]
  | cons u us ih =>
    intro seen x
    rw [seenAfter]
    by_cases h : u.id ∈ seen
    · rw [if_pos h, ih]
      simp only [List.map_cons, List.mem_cons]
      constructor
      · rintro (hx | hx)
        · exact Or.inl hx
        · exact Or.inr (Or.inr hx)
      · rintro (hx | rfl | hx)
        · exact Or.inl hx
        · exact Or.inl h
        · exact Or.inr hx
    · rw [if_neg h, ih]
      simp only [List.mem_cons, List.map_cons]
      tauto

theorem dedupGo_subsumed (b : List PyUser) : ∀ seen : List Int,
    (∀ u ∈ b, u.id ∈ seen) → dedupGo seen b = [] := by
  induction b with
  | nil => intro seen _; rfl
  | cons u us ih =>
    intro seen h
    rw [dedupGo, if_pos (h u (by simp))]
    exact ih seen fun x hx => h x (by simp [hx])

theorem dedup_append_subsumed (acc p : List PyUser)
    (h : ∀ u ∈ p, u.id ∈ acc.map PyUser.id) :
    dedupById (acc ++ p) = dedupById acc := by
  rw [dedupById, dedupById, dedupGo_append]
  rw [dedupGo_subsumed p (seenAfter [] acc) (fun u hu => (mem_seenAfter acc [] u.id).mpr (Or.inr (h u hu)))]
  simp

theorem usersLoop_spec (limit : Nat) (hlim : 1 ≤ limit) :
    ∀ (pages : List (List PyUser)) (last : Option (List PyUser)) (acc : List PyUser),
    (∀ l, last = some l → ∀ u ∈ l, u.id ∈ acc.map PyUser.id) →
    (usersLoop limit pages last acc).map (fun rn => (dedupById rn.1, rn.2))
      = (usersStopIdx limit pages last).map
          (fun k => (dedupById (acc ++ (pages.take (k + 1)).flatten), k + 1)) := by
  intro pages
  induction pages with
  | nil =>
    intro last acc _
    rfl
  | cons p rest ih =>
    intro last acc hinv
    rw [usersLoop, usersStopIdx]
    by_cases hempty : p = []
    · subst hempty
      rw [if_pos rfl, if_pos (Or.inl (by simpa using hlim))]
      simp
    · rw [if_neg hempty]
      by_cases hdup : some p = last
      · rw [if_pos hdup, if_pos (Or.inr hdup)]
        have hsub := hinv p hdup.symm
        simp [dedup_append_subsumed acc p hsub]
      · rw [if_neg hdup]
        by_cases hshort : p.length < limit
        · rw [if_pos hshort, if_pos (Or.inl hshort)]
          simp
        · rw [if_neg hshort]
          have hspec : ¬ (p.length < limit ∨ some p = last) := by tauto
          rw [if_neg hspec]
          have hinv2 : ∀ l, some p = some l → ∀ u ∈ l, u.id ∈ (acc ++ p).map PyUser.id := by
            intro l hl u hu
            injection hl with hl
            subst hl
            simp only [List.map_append, List.mem_append]
            exact Or.inr (List.mem_map_of_mem PyUser.id hu)
          have IH := ih (some p) (acc ++ p) hinv2
          rcases hL : usersLoop limit rest (some p) (acc ++ p) with _ | rn
          · rw [hL] at IH
            rcases hS : usersStopIdx limit rest (some p) with _ | k
            · simp [hL, hS]
            · rw [hS] at IH
              simp at IH
          · rw [hL] at IH
            rcases hS : usersStopIdx limit rest (some p) with _ | k
            · rw [hS] at IH
              simp at IH
            · rw [hS] at IH
              simp only [Option.map] at IH
              rcases rn with ⟨r, n⟩
              rw [Option.some.injEq, Prod.mk.injEq] at IH
              simp only [Option.map]
              rw [Option.some.injEq, Prod.mk.injEq]
              refine ⟨?_, by rw [show n = k + 1 from IH.2]⟩
              rw [show dedupById r = dedupById (acc ++ p ++ (List.take (k + 1) rest).flatten) from IH.1]
              rw [List.take_succ_cons, List.flatten_cons, ← List.append_assoc]
          

theorem dedupGo_props (us : List PyUser) : ∀ seen : List Int,
    (∀ v ∈ dedupGo seen us, v.id ∉ seen)
    ∧ ((dedupGo seen us).map PyUser.id).Nodup
    ∧ List.Sublist (dedupGo seen us) us
    ∧ (∀ u ∈ us, u.id ∈ seen ∨ ∃ v ∈ dedupGo seen us, v.id = u.id)
    ∧ (∀ v ∈ dedupGo seen us, us.find? (fun u => u.id == v.id) = some v) := by
  induction us with
  | nil =>
    intro seen
    refine ⟨by simp [dedupGo], by simp [dedupGo], by simp [dedupGo], by simp, by simp [dedupGo]⟩
  | cons u us2 ih =>
    intro seen
    by_cases h : u.id ∈ seen
    · have hd : dedupGo seen (u :: us2) = dedupGo seen us2 := by
        rw [dedupGo, if_pos h]
      obtain ⟨p1, p2, p3, p4, p5⟩ := ih seen
      refine ⟨by rw [hd]; exact p1, by rw [hd]; exact p2, ?_, ?_, ?_⟩
      · rw [hd]
        exact p3.cons u
      · intro w hw
        rcases List.mem_cons.mp hw with rfl | hw
        · exact Or.inl h
        · rcases p4 w hw with hseen | ⟨v, hv, hid⟩
          · exact Or.inl hseen
          · refine Or.inr ⟨v, ?_, hid⟩
            rw [hd]
            exact hv
      · intro v hv
        rw [hd] at hv
        have hne : v.id ≠ u.id := fun hc => (p1 v hv) (hc ▸ h)
        have htest : (u.id == v.id) = false := by
          rw [beq_eq_false_iff_ne]
          exact fun hc => hne hc.symm
        rw [List.find?_cons_of_neg _ (by simp [htest]), p5 v hv]
    · have hd : dedupGo seen (u :: us2) = u :: dedupGo (u.id :: seen) us2 := by
        rw [dedupGo, if_neg h]
      obtain ⟨p1, p2, p3, p4, p5⟩ := ih (u.id :: seen)
      refine ⟨?_, ?_, ?_, ?_, ?_⟩
      · intro v hv
        rw [hd] at hv
        rcases List.mem_cons.mp hv with rfl | hv
        · exact h
        · intro hc
          exact p1 v hv (by simp [hc])
      · rw [hd, List.map_cons, List.nodup_cons]
        refine ⟨?_, p2⟩
        intro hc
        obtain ⟨v, hv, hid⟩ := List.mem_map.mp hc
        exact p1 v hv (by simp [hid])
      · rw [hd]
        exact p3.cons₂ u
      · intro w hw
        rcases List.mem_cons.mp hw with rfl | hw
        · refine Or.inr ⟨w, ?_, rfl⟩
          rw [hd]
          exact List.mem_cons_self w _
        · rcases p4 w hw with hseen | ⟨v, hv, hid⟩
          · rcases List.mem_cons.mp hseen with hid | hseen
            · refine Or.inr ⟨u, ?_, hid.symm⟩
              rw [hd]
              exact List.mem_cons_self u _
            · exact Or.inl hseen
          · refine Or.inr ⟨v, ?_, hid⟩
            rw [hd]
            exact List.mem_cons_of_mem u hv
      · intro v hv
        rw [hd] at hv
        rcases List.mem_cons.mp hv with rfl | hv
        · rw [List.find?_cons_of_pos]
          simp
        · have hne : v.id ≠ u.id := by
            intro hc
            exact p1 v hv (by simp [hc])
          have htest : (u.id == v.id) = false := by
            rw [beq_eq_false_iff_ne]
            exact fun hc => hne hc.symm
          rw [List.find?_cons_of_neg _ (by simp [htest]), p5 v hv]

/-- C8: the user listing pages by consecutive numeric page indices and, with
`paginate=True` and a positive page size, stops exactly at the claim's
first stopping page: the first page with fewer records than the page size
or equal to the immediately preceding page (an empty page is a
fewer-than-limit page).  The result is the concatenation of the pages up to
and including the stopping page, deduplicated by record identifier — and
deduplication keeps exactly the first occurrence of each identifier in
first-seen order. -/
theorem c8_users_pagination (limit : Nat) (hlim : 1 ≤ limit) (pages : List (List PyUser)) :
    users_query limit pages
      = (usersStopIdx limit pages none).map
          (fun k => (dedupById ((pages.take (k + 1)).flatten), k + 1))
    ∧ ∀ us : List PyUser,
        ((dedupById us).map PyUser.id).Nodup
        ∧ List.Sublist (dedupById us) us
        ∧ (∀ u ∈ us, ∃ v ∈ dedupById us, v.id = u.id)
        ∧ ∀ v ∈ dedupById us, us.find? (fun u => u.id == v.id) = some v := by
  constructor
  · have heq : users_query limit pages
        = (usersLoop limit pages none []).map (fun rn => (dedupById rn.1, rn.2)) := by
      rw [users_query]
      rcases usersLoop limit pages none [] with _ | ⟨r, n⟩ <;> rfl
    rw [heq, usersLoop_spec limit hlim pages none [] (by intro l hl; cases hl)]
    simp
  · intro us
    obtain ⟨p1, p2, p3, p4, p5⟩ := dedupGo_props us []
    refine ⟨p2, p3, ?_, p5⟩
    intro u hu
    rcases p4 u hu with hseen | hv
    · simp at hseen
    · exact hv

theorem c8_users_pagination_witness :
    users_query 2 [[⟨1, "a"⟩, ⟨2, "b"⟩], [⟨2, "b2"⟩, ⟨3, "c"⟩], [⟨4, "d"⟩]]
      = (usersStopIdx 2 [[⟨1, "a"⟩, ⟨2, "b"⟩], [⟨2, "b2"⟩, ⟨3, "c"⟩], [⟨4, "d"⟩]] none).map
          (fun k =>
            (dedupById (([[⟨1, "a"⟩, ⟨2, "b"⟩], [⟨2, "b2"⟩, ⟨3, "c"⟩], [⟨4, "d"⟩]].take (k + 1)).flatten),
              k + 1)) :=
  (c8_users_pagination 2 (by norm_num)
    [[⟨1, "a"⟩, ⟨2, "b"⟩], [⟨2, "b2"⟩, ⟨3, "c"⟩], [⟨4, "d"⟩]]).1
